import Mathlib

/-!
Shallow embedding of `zhuomingao/elastic-tools` (`src/index.js`), a wrapper
around an Elasticsearch client.  Cluster interactions are modelled by passing
the cluster's response (or the alias binding state) explicitly; JavaScript
exceptions become `Except`; JavaScript values that may be a string, an array,
a number, etc. become the inductive `JSVal`.
-/

namespace ElasticTools

/-- A JavaScript value as it can appear in the `add` / `remove` fields of
`updateAlias`'s options object.  `arrV` carries a list of index names. -/
inductive JSVal where
  | undef
  | nullV
  | boolV (b : Bool)
  | numV (n : Int)
  | strV (s : String)
  | arrV (xs : List String)
  deriving DecidableEq, Repr

/-- JavaScript truthiness of a `JSVal` (`if (add && ...)`). -/
def JSVal.truthy : JSVal → Bool
  | .undef => false
  | .nullV => false
  | .boolV b => b
  | .numV n => n != 0
  | .strV s => s != ""
  | .arrV _ => true

/-- The normalized `addArr` / `removeArr` value in `updateAlias`: because the
code writes `add === 'string' ? [add] : add`, the normalized value can be a
bare string (not wrapped in an array) as well as an array. -/
inductive StrOrList where
  | str (v : String)
  | arr (xs : List String)
  deriving DecidableEq, Repr

/-- JavaScript `.length` of the normalized value: character count for a bare
string, element count for an array. -/
def StrOrList.jsLength : StrOrList → Nat
  | .str v => v.length
  | .arr xs => xs.length

/-- The set of index names an `indices` field denotes to Elasticsearch: a bare
string names the single index, an array names its elements. -/
def StrOrList.denoted : StrOrList → List String
  | .str v => [v]
  | .arr xs => xs

/-- The errors the embedded operations can raise.  The first three correspond
to the `throw new Error(...)` messages of `updateAlias`; `cluster status`
stands for a propagated cluster/transport error with the given HTTP status. -/
inductive EsError where
  | invalidAdd
  | invalidRemove
  | mustAddOrRemove
  | cluster (status : Int)
  deriving DecidableEq, Repr

/-- Normalization of the `add` or `remove` argument in `updateAlias`
(src/index.js lines 162-174).  Mirrors:
`if (v && (typeof v === 'string' || Array.isArray(v))) { arr = v === 'string' ? [v] : v } else if (v) { throw e }`.
Note the comparison is with the literal string "string", not with `typeof v`,
so a string value other than "string" stays a bare string. -/
def normalizeIndicesArg (e : EsError) (v : JSVal) : Except EsError StrOrList :=
  if v.truthy then
    match v with
    | .strV s => .ok (if s = "string" then .arr [s] else .str s)
    | .arrV xs => .ok (.arr xs)
    | _ => .error e
  else
    .ok (.arr [])

/-- One entry of the ordered `actions` list submitted to the cluster's
alias-update endpoint. -/
inductive AliasAction where
  | add (idx : StrOrList) (aliasName : String)
  | remove (idx : StrOrList) (aliasName : String)
  deriving DecidableEq, Repr

/-- The pure core of `updateAlias` (src/index.js lines 160-199): validates the
`add` / `remove` arguments and builds the ordered action list that is then
submitted in a single `updateAliases` request. -/
def updateAliasActions (aliasName : String) (add remove : JSVal) :
    Except EsError (List AliasAction) := do
  let addArr ← normalizeIndicesArg .invalidAdd add
  let removeArr ← normalizeIndicesArg .invalidRemove remove
  if addArr.jsLength = 0 ∧ removeArr.jsLength = 0 then
    throw .mustAddOrRemove
  return (if addArr.jsLength ≠ 0 then [AliasAction.add addArr aliasName] else [])
    ++ (if removeArr.jsLength ≠ 0 then [AliasAction.remove removeArr aliasName] else [])

/-- Modelled from the spec: the Elasticsearch cluster applies the actions of
one alias-update request in order; an `add` action binds each named index to
the alias (a no-op for an index already bound), a `remove` action unbinds each
named index.  The binding state of one alias is the list of bound index
names (distinct, as the cluster keys them by name). -/
def applyAliasAction (bindings : List String) : AliasAction → List String
  | .add idx _ => idx.denoted.foldl (fun b i => if i ∈ b then b else b ++ [i]) bindings
  | .remove idx _ => bindings.filter (fun i => !(idx.denoted.contains i))

/-- Modelled from the spec: apply the ordered action list of one alias-update
request to the binding state. -/
def applyAliasActions (bindings : List String) (actions : List AliasAction) : List String :=
  actions.foldl applyAliasAction bindings

/-- `setAliasToSingleIndex` (src/index.js lines 101-115), with the cluster's
current binding state for the alias passed in (this is what
`getIndicesForAlias` returns on success).  Computes the indices to remove,
builds the single alias-update request via `updateAlias`, and returns the
binding state after the cluster applies it. -/
def setAliasToSingleIndex (bindings : List String) (aliasName indexName : String) :
    Except EsError (List String) := do
  let removeIdx := bindings.filter (fun idx => idx != indexName)
  let actions ← updateAliasActions aliasName (.strV indexName) (.arrV removeIdx)
  return applyAliasActions bindings actions

/-- One index's settings entry as returned by the get-settings query: the
index name paired with its `index.creation_date` value in epoch millis. -/
abbrev SettingsEntry := String × Nat

/-- The comparator of `getIndicesOlderThan`'s sort: `(a,b) => bdate - adate`,
i.e. descending by creation date. -/
def creationDateDesc (a b : SettingsEntry) : Prop := b.2 ≤ a.2

instance : DecidableRel creationDateDesc := fun a b => Nat.decLe b.2 a.2

instance : IsTotal SettingsEntry creationDateDesc :=
  ⟨fun a b => Nat.le_total b.2 a.2⟩

instance : IsTrans SettingsEntry creationDateDesc :=
  ⟨fun _ _ _ h h' => Nat.le_trans h' h⟩

/-- `getIndicesOlderThan` (src/index.js lines 123-151), with the cluster's
get-settings response passed in as the list of (index name, creation date)
entries.  Throws when `aliasName` is empty (falsy), otherwise filters to the
entries strictly older than the cutoff and sorts them descending by creation
date, returning the index names. -/
def getIndicesOlderThan (aliasName : String) (settingsResp : List SettingsEntry)
    (datetime : Nat) : Except EsError (List String) :=
  if aliasName = "" then
    .error (.cluster 0)
  else
    .ok (((settingsResp.filter (fun e => e.2 < datetime)).insertionSort
      creationDateDesc).map Prod.fst)

/-- A cluster response: either the parsed body or a transport error carrying
an HTTP status code. -/
inductive ClusterResp (α : Type) where
  | ok (val : α)
  | err (status : Int)
  deriving DecidableEq, Repr

/-- `getIndicesForAlias` (src/index.js lines 211-231), with the cluster's
get-alias response passed in.  The response body is keyed by index name, so
the success value is the list of index names; a 404 error is normalized to
the empty list, any other error propagates. -/
def getIndicesForAlias (resp : ClusterResp (List String)) :
    Except EsError (List String) :=
  match resp with
  | .ok keys => .ok keys
  | .err status => if status = 404 then .ok [] else .error (.cluster status)

/-- `optimizeIndex` (src/index.js lines 63-76), with the force-merge outcome
passed in.  Returns whether an error was logged, paired with the operation's
result; the catch block re-raises nothing. -/
def optimizeIndex (resp : ClusterResp Unit) : Bool × Except EsError Unit :=
  match resp with
  | .ok _ => (false, .ok ())
  | .err status => (if status ≠ 504 then true else false, .ok ())

/-- One per-document entry of the bulk response that came from an `index`
action: its `_id`, its optional `result` string ("created", "updated", ...),
and its optional `error` cause.  Entries from other bulk action types are
modelled as `none` in the response list. -/
structure IndexItem where
  docId : String
  result : Option String
  error : Option String
  deriving DecidableEq, Repr

/-- The three buckets `indexDocumentBulk` returns: created ids, updated ids,
and (id, error cause) pairs. -/
structure BulkOutcome where
  created : List String
  updated : List String
  errors : List (String × String)
  deriving DecidableEq, Repr

/-- The `index` entries of the bulk response, in order
(`res.items.filter(i => i.index).map(i => i.index)`). -/
def indexedItems (items : List (Option IndexItem)) : List IndexItem :=
  items.filterMap id

/-- The response-classification core of `indexDocumentBulk`
(src/index.js lines 306-314): three independent filters over the `index`
entries of the bulk response. -/
def indexDocumentBulk (items : List (Option IndexItem)) : BulkOutcome :=
  let idx := indexedItems items
  { created := (idx.filter (fun i => i.result == some "created")).map IndexItem.docId
    updated := (idx.filter (fun i => i.result == some "updated")).map IndexItem.docId
    errors := (idx.filter (fun i => i.error.isSome)).map
      (fun i => (i.docId, i.error.getD "")) }

/-- A wall-clock instant as moment.js formats it: local year, month (1-12),
day, hour, minute, second. -/
structure Wallclock where
  year : Nat
  month : Nat
  day : Nat
  hour : Nat
  minute : Nat
  second : Nat
  deriving DecidableEq, Repr

/-- Left-pad the decimal representation of `n` with zeros to width `w`
(moment's `YYYY`, `MM`, ... tokens). -/
def padNum (w n : Nat) : String :=
  let s := Nat.repr n
  String.mk (List.replicate (w - s.length) '0') ++ s

/-- `now.format("YYYYMMDD_HHmmss")` as used by `createTimestampedIndex`
(src/index.js line 53): date part, an underscore, then the time part. -/
def formatTimestamp (t : Wallclock) : String :=
  padNum 4 t.year ++ padNum 2 t.month ++ padNum 2 t.day ++ "_"
    ++ padNum 2 t.hour ++ padNum 2 t.minute ++ padNum 2 t.second

/-- `createTimestampedIndex` (src/index.js lines 51-57), with the current
time passed in: returns the generated index name. -/
def createTimestampedIndex (name : String) (now : Wallclock) : String :=
  name ++ "_" ++ formatTimestamp now

/-- The deletion-set core of `cleanupOldIndices` (src/index.js lines 326-355),
with the two cluster responses passed in: the get-settings entries that
`getIndicesOlderThan` queries, and the alias bindings that
`getIndicesForAlias` reports.  Returns the list of index names the sweep
deletes.  When no index is older than the cutoff the function returns early
and queries nothing further. -/
def cleanupOldIndices (idxPre : String) (settingsResp : List SettingsEntry)
    (aliasedIndices : List String) (olderThanDate : Nat) :
    Except EsError (List String) := do
  let oldIndices ← getIndicesOlderThan idxPre settingsResp olderThanDate
  if oldIndices = [] then
    return []
  else
    return oldIndices.filter (fun idx => !(aliasedIndices.contains idx))

/-! ### Helper lemmas -/

lemma length_ne_zero_of_ne_empty {s : String} (h : s ≠ "") : s.length ≠ 0 := by
  intro h0
  exact h (by cases s with | mk l => simp [String.length] at h0; simp [h0])

lemma normalize_ok_or_error (e : EsError) (v : JSVal) :
    (∃ a, normalizeIndicesArg e v = .ok a) ∨ normalizeIndicesArg e v = .error e := by
  rcases v with _ | _ | b | n | s | xs
  · exact .inl ⟨.arr [], rfl⟩
  · exact .inl ⟨.arr [], rfl⟩
  · cases b
    · exact .inl ⟨.arr [], rfl⟩
    · exact .inr rfl
  · by_cases h : n = 0
    · exact .inl ⟨.arr [], by simp [normalizeIndicesArg, JSVal.truthy, h]⟩
    · exact .inr (by simp [normalizeIndicesArg, JSVal.truthy, h])
  · by_cases h : s = ""
    · exact .inl ⟨.arr [], by simp [normalizeIndicesArg, JSVal.truthy, h]⟩
    · exact .inl ⟨if s = "string" then .arr [s] else .str s,
        by simp [normalizeIndicesArg, JSVal.truthy, h]⟩
  · exact .inl ⟨.arr xs, by simp [normalizeIndicesArg, JSVal.truthy]⟩

lemma normalize_invalid (e : EsError) (v : JSVal) (ht : v.truthy = true)
    (hs : ∀ s, v ≠ .strV s) (hx : ∀ xs, v ≠ .arrV xs) :
    normalizeIndicesArg e v = .error e := by
  rcases v with _ | _ | b | n | s | xs
  · simp [JSVal.truthy] at ht
  · simp [JSVal.truthy] at ht
  · simp [normalizeIndicesArg, ht]
  · simp [normalizeIndicesArg, ht]
  · exact absurd rfl (hs s)
  · exact absurd rfl (hx xs)

lemma normalize_strV (s : String) (e : EsError) (h0 : s ≠ "") (h1 : s ≠ "string") :
    normalizeIndicesArg e (.strV s) = .ok (.str s) := by
  simp [normalizeIndicesArg, JSVal.truthy, h0, h1]

lemma normalize_arrV (xs : List String) (e : EsError) :
    normalizeIndicesArg e (.arrV xs) = .ok (.arr xs) := by
  simp [normalizeIndicesArg, JSVal.truthy]

lemma updateAliasActions_eq (n : String) (add remove : JSVal) (a r : StrOrList)
    (ha : normalizeIndicesArg .invalidAdd add = .ok a)
    (hr : normalizeIndicesArg .invalidRemove remove = .ok r)
    (hne : ¬(a.jsLength = 0 ∧ r.jsLength = 0)) :
    updateAliasActions n add remove =
      .ok ((if a.jsLength ≠ 0 then [AliasAction.add a n] else [])
        ++ (if r.jsLength ≠ 0 then [AliasAction.remove r n] else [])) := by
  simp only [updateAliasActions, ha, hr, Bind.bind, Except.bind, pure, Except.pure]
  simp [hne]

lemma updateAliasActions_bothEmpty (n : String) (add remove : JSVal) (a r : StrOrList)
    (ha : normalizeIndicesArg .invalidAdd add = .ok a)
    (hr : normalizeIndicesArg .invalidRemove remove = .ok r)
    (hza : a.jsLength = 0) (hzr : r.jsLength = 0) :
    updateAliasActions n add remove = .error .mustAddOrRemove := by
  simp [updateAliasActions, ha, hr, hza, hzr, Bind.bind, Except.bind, pure, Except.pure,
    throw, throwThe, MonadExceptOf.throw, Functor.map, Except.map]

lemma updateAliasActions_addError (n : String) (add remove : JSVal)
    (ha : normalizeIndicesArg .invalidAdd add = .error .invalidAdd) :
    updateAliasActions n add remove = .error .invalidAdd := by
  simp [updateAliasActions, ha, Bind.bind, Except.bind]

lemma updateAliasActions_removeError (n : String) (add remove : JSVal) (a : StrOrList)
    (ha : normalizeIndicesArg .invalidAdd add = .ok a)
    (hr : normalizeIndicesArg .invalidRemove remove = .error .invalidRemove) :
    updateAliasActions n add remove = .error .invalidRemove := by
  simp [updateAliasActions, ha, hr, Bind.bind, Except.bind]

/-! ### Claims -/

/-- Claim C5: `updateAlias` fails with an invalid-argument error when both
`add` and `remove` resolve to empty, and when either is a truthy value that
is neither a string nor an array. -/
theorem updateAlias_invalidArgument (n : String) (add remove : JSVal) :
    ((∃ a, normalizeIndicesArg .invalidAdd add = .ok a ∧ a.jsLength = 0) →
     (∃ r, normalizeIndicesArg .invalidRemove remove = .ok r ∧ r.jsLength = 0) →
     updateAliasActions n add remove = .error .mustAddOrRemove)
    ∧ (add.truthy = true → (∀ s, add ≠ .strV s) → (∀ xs, add ≠ .arrV xs) →
       updateAliasActions n add remove = .error .invalidAdd)
    ∧ (remove.truthy = true → (∀ s, remove ≠ .strV s) → (∀ xs, remove ≠ .arrV xs) →
       updateAliasActions n add remove = .error .invalidAdd ∨
       updateAliasActions n add remove = .error .invalidRemove) := by
  refine ⟨?_, ?_, ?_⟩
  · rintro ⟨a, ha, hza⟩ ⟨r, hr, hzr⟩
    exact updateAliasActions_bothEmpty n add remove a r ha hr hza hzr
  · intro ht hs hx
    exact updateAliasActions_addError n add remove
      (normalize_invalid .invalidAdd add ht hs hx)
  · intro ht hs hx
    rcases normalize_ok_or_error .invalidAdd add with ⟨a, ha⟩ | ha
    · exact .inr (updateAliasActions_removeError n add remove a ha
        (normalize_invalid .invalidRemove remove ht hs hx))
    · exact .inl (updateAliasActions_addError n add remove ha)

/-- Witness for C5 at concrete inputs: omitted arguments, a numeric `add`,
and a boolean `remove`. -/
theorem updateAlias_invalidArgument_witness :
    updateAliasActions "a" .undef .undef = .error .mustAddOrRemove
    ∧ updateAliasActions "a" (.numV 1) .undef = .error .invalidAdd
    ∧ (updateAliasActions "a" (.strV "x") (.boolV true) = .error .invalidAdd ∨
       updateAliasActions "a" (.strV "x") (.boolV true) = .error .invalidRemove) :=
  ⟨(updateAlias_invalidArgument "a" .undef .undef).1
      ⟨.arr [], rfl, rfl⟩ ⟨.arr [], rfl, rfl⟩,
   (updateAlias_invalidArgument "a" (.numV 1) .undef).2.1 rfl
      (fun s h => by cases h) (fun xs h => by cases h),
   (updateAlias_invalidArgument "a" (.strV "x") (.boolV true)).2.2 rfl
      (fun s h => by cases h) (fun xs h => by cases h)⟩

/-- Claim C6: for valid arguments, `updateAlias` submits one ordered action
list with the `add` action before the `remove` action when both are
non-empty, omitting the action for whichever of the two is empty. -/
theorem updateAlias_actionOrder (n : String) (add remove : JSVal) (a r : StrOrList)
    (ha : normalizeIndicesArg .invalidAdd add = .ok a)
    (hr : normalizeIndicesArg .invalidRemove remove = .ok r) :
    (a.jsLength ≠ 0 → r.jsLength ≠ 0 →
      updateAliasActions n add remove = .ok [.add a n, .remove r n])
    ∧ (a.jsLength ≠ 0 → r.jsLength = 0 →
      updateAliasActions n add remove = .ok [.add a n])
    ∧ (a.jsLength = 0 → r.jsLength ≠ 0 →
      updateAliasActions n add remove = .ok [.remove r n]) := by
  refine ⟨?_, ?_, ?_⟩
  · intro hna hnr
    rw [updateAliasActions_eq n add remove a r ha hr (fun h => hna h.1)]
    simp [hna, hnr]
  · intro hna hzr
    rw [updateAliasActions_eq n add remove a r ha hr (fun h => hna h.1)]
    simp [hna, hzr]
  · intro hza hnr
    rw [updateAliasActions_eq n add remove a r ha hr (fun h => hnr h.2)]
    simp [hza, hnr]

/-- Witness for C6: the spec's 404 scenario — no prior bindings, so a
single-action list with only an `add` and no `remove`. -/
theorem updateAlias_actionOrder_witness :
    normalizeIndicesArg .invalidAdd (.strV "logs_20240101000000")
      = .ok (.str "logs_20240101000000")
    ∧ normalizeIndicesArg .invalidRemove (.arrV ([] : List String)) = .ok (.arr [])
    ∧ updateAliasActions "logs" (.strV "logs_20240101000000") (.arrV [])
      = .ok [.add (.str "logs_20240101000000") "logs"] :=
  ⟨rfl, rfl,
   (updateAlias_actionOrder "logs" (.strV "logs_20240101000000") (.arrV [])
      (.str "logs_20240101000000") (.arr []) rfl rfl).2.1 (by decide) rfl⟩

/-- Claim C10: a string argument other than the literal "string" is passed
through unwrapped as the `indices` field of the submitted action; the
literal string "string" is the only string wrapped into a singleton array;
array arguments pass through unchanged. -/
theorem updateAlias_stringQuirk (n s : String) (rv : JSVal) (r : StrOrList)
    (hs0 : s ≠ "") (hs1 : s ≠ "string")
    (hr : normalizeIndicesArg .invalidRemove rv = .ok r) :
    normalizeIndicesArg .invalidAdd (.strV s) = .ok (.str s)
    ∧ normalizeIndicesArg .invalidAdd (.strV "string") = .ok (.arr ["string"])
    ∧ (∀ xs, normalizeIndicesArg .invalidAdd (.arrV xs) = .ok (.arr xs))
    ∧ (∃ rest, updateAliasActions n (.strV s) rv
        = .ok (AliasAction.add (.str s) n :: rest))
    ∧ (∃ rest, updateAliasActions n (.strV "string") rv
        = .ok (AliasAction.add (.arr ["string"]) n :: rest)) := by
  have hlen : StrOrList.jsLength (.str s) ≠ 0 := length_ne_zero_of_ne_empty hs0
  refine ⟨normalize_strV s .invalidAdd hs0 hs1, rfl,
    fun xs => normalize_arrV xs .invalidAdd, ?_, ?_⟩
  · refine ⟨if r.jsLength ≠ 0 then [AliasAction.remove r n] else [], ?_⟩
    rw [updateAliasActions_eq n (.strV s) rv (.str s) r
      (normalize_strV s .invalidAdd hs0 hs1) hr (fun h => hlen h.1)]
    simp [hlen]
  · refine ⟨if r.jsLength ≠ 0 then [AliasAction.remove r n] else [], ?_⟩
    rw [updateAliasActions_eq n (.strV "string") rv (.arr ["string"]) r rfl hr
      (by simp [StrOrList.jsLength])]
    simp [StrOrList.jsLength]

/-- Witness for C10 at concrete inputs. -/
theorem updateAlias_stringQuirk_witness :
    normalizeIndicesArg .invalidAdd (.strV "myindex") = .ok (.str "myindex")
    ∧ (∃ rest, updateAliasActions "logs" (.strV "myindex") (.arrV ["old"])
        = .ok (AliasAction.add (.str "myindex") "logs" :: rest)) :=
  ⟨(updateAlias_stringQuirk "logs" "myindex" (.arrV ["old"]) (.arr ["old"])
      (by decide) (by decide) rfl).1,
   (updateAlias_stringQuirk "logs" "myindex" (.arrV ["old"]) (.arr ["old"])
      (by decide) (by decide) rfl).2.2.2.1⟩

/-- Claim C7: `getIndicesForAlias` turns a 404 not-found response into a
successful empty result, passes a successful response through, and
propagates every other cluster failure as an error. -/
theorem getIndicesForAlias_policy (status : Int) (keys : List String) :
    getIndicesForAlias (ClusterResp.err 404) = .ok []
    ∧ getIndicesForAlias (.ok keys) = .ok keys
    ∧ (status ≠ 404 → getIndicesForAlias (.err status) = .error (.cluster status)) := by
  refine ⟨rfl, rfl, fun h => ?_⟩
  simp [getIndicesForAlias, h]

/-- Witness for C7 at a concrete non-404 status. -/
theorem getIndicesForAlias_policy_witness :
    (500 : Int) ≠ 404
    ∧ getIndicesForAlias (ClusterResp.err 500) = .error (.cluster 500) :=
  ⟨by decide, (getIndicesForAlias_policy 500 []).2.2 (by decide)⟩

/-- Claim C8: `optimizeIndex` never raises — its result is always success;
a 504 failure is swallowed without logging an error, and exactly the
non-504 failures are logged. -/
theorem optimizeIndex_policy (resp : ClusterResp Unit) :
    (optimizeIndex resp).2 = .ok ()
    ∧ ((optimizeIndex resp).1 = true ↔ ∃ s, resp = .err s ∧ s ≠ 504) := by
  rcases resp with v | status
  · exact ⟨rfl, by simp [optimizeIndex]⟩
  · refine ⟨by simp [optimizeIndex], ?_⟩
    by_cases h : status = 504
    · subst h
      simp [optimizeIndex]
    · simp [optimizeIndex, h]

lemma all_eq_nil_or_singleton {b : List String} {X : String} (hnd : b.Nodup)
    (h : ∀ i ∈ b, i = X) : b = [] ∨ b = [X] := by
  rcases b with _ | ⟨y, _ | ⟨z, t⟩⟩
  · exact .inl rfl
  · exact .inr (by rw [h y (by simp)])
  · exfalso
    have hy := h y (by simp)
    have hz := h z (by simp)
    have hne : y ≠ z := by
      intro he
      exact (List.nodup_cons.mp hnd).1 (he ▸ List.mem_cons_self z t)
    exact hne (hy.trans hz.symm)

lemma addThenRemove_eq_single (b : List String) (X : String) (hnd : b.Nodup) :
    (if X ∈ b then b else b ++ [X]).filter
      (fun i => !((b.filter (fun j => j != X)).contains i)) = [X] := by
  have hXnot : X ∉ b.filter (fun j => j != X) := by simp [List.mem_filter]
  have hXfalse : ((b.filter (fun j => j != X)).contains X) = false := by
    rw [← Bool.not_eq_true]
    intro hc
    simp at hc
  have hkeep : ∀ i ∈ b,
      (!((b.filter (fun j => j != X)).contains i)) = (i == X) := by
    intro i hi
    rcases eq_or_ne i X with rfl | hne
    · rw [hXfalse]
      simp
    · have hin : i ∈ b.filter (fun j => j != X) := by
        simp [List.mem_filter, hi, hne]
      have hc : ((b.filter (fun j => j != X)).contains i) = true := by simpa using hin
      rw [hc]
      simp [hne]
  by_cases hXb : X ∈ b
  · rw [if_pos hXb, List.filter_congr hkeep, List.filter_beq,
      List.count_eq_one_of_mem hnd hXb, List.replicate_one]
  · rw [if_neg hXb, List.filter_append, List.filter_congr hkeep, List.filter_beq,
      List.count_eq_zero_of_not_mem hXb, List.replicate_zero, List.nil_append]
    simp [List.filter, hXfalse]

/-- Claim C1: a successful `setAliasToSingleIndex(alias, X)` removes exactly
the current bindings other than `X` while adding `X` in one `updateAlias`
call, so the alias afterwards resolves to exactly `[X]`, whatever the number
of prior bindings. -/
theorem setAliasToSingleIndex_correct (bindings : List String) (a X : String)
    (hnd : bindings.Nodup) (hX : X ≠ "") :
    ∃ acts,
      updateAliasActions a (.strV X) (.arrV (bindings.filter (fun i => i != X)))
        = .ok acts
      ∧ applyAliasActions bindings acts = [X]
      ∧ setAliasToSingleIndex bindings a X = .ok [X] := by
  have haddLen : (if X = "string" then StrOrList.arr [X] else .str X).jsLength ≠ 0 := by
    split
    · simp [StrOrList.jsLength]
    · exact length_ne_zero_of_ne_empty hX
  have hadd : normalizeIndicesArg .invalidAdd (.strV X)
      = .ok (if X = "string" then .arr [X] else .str X) := by
    by_cases hXs : X = "string"
    · subst hXs
      rfl
    · simp [normalize_strV X .invalidAdd hX hXs, hXs]
  have hdenot : (if X = "string" then StrOrList.arr [X] else StrOrList.str X).denoted
      = [X] := by
    split <;> rfl
  have hacts := updateAliasActions_eq a (.strV X)
    (.arrV (bindings.filter (fun i => i != X)))
    (if X = "string" then .arr [X] else .str X)
    (.arr (bindings.filter (fun i => i != X))) hadd
    (normalize_arrV _ .invalidRemove) (fun h => haddLen h.1)
  rw [if_pos haddLen] at hacts
  have hstep1 : applyAliasAction bindings
      (AliasAction.add (if X = "string" then .arr [X] else .str X) a)
      = if X ∈ bindings then bindings else bindings ++ [X] := by
    simp [applyAliasAction, hdenot]
  have happly : applyAliasActions bindings
      ([AliasAction.add (if X = "string" then StrOrList.arr [X] else StrOrList.str X) a]
        ++ (if (StrOrList.arr (bindings.filter (fun i => i != X))).jsLength ≠ 0
          then [AliasAction.remove (.arr (bindings.filter (fun i => i != X))) a]
          else [])) = [X] := by
    by_cases hRz : (bindings.filter (fun i => i != X)) = []
    · have hall : ∀ i ∈ bindings, i = X := by
        intro i hi
        by_contra hne
        exact (List.eq_nil_iff_forall_not_mem.mp hRz i)
          (by simp [List.mem_filter, hi, hne])
      rw [hRz]
      have hif : (if (StrOrList.arr ([] : List String)).jsLength ≠ 0
          then [AliasAction.remove (StrOrList.arr ([] : List String)) a]
          else []) = [] := by
        simp [StrOrList.jsLength]
      rw [hif, List.append_nil]
      simp only [applyAliasActions, List.foldl_cons, List.foldl_nil, hstep1]
      rcases all_eq_nil_or_singleton hnd hall with rfl | rfl
      · simp
      · simp
    · have hRlen : (StrOrList.arr (bindings.filter (fun i => i != X))).jsLength ≠ 0 := by
        simpa [StrOrList.jsLength, List.length_eq_zero] using hRz
      rw [if_pos hRlen]
      simp only [List.singleton_append, applyAliasActions, List.foldl_cons,
        List.foldl_nil, hstep1]
      simpa [applyAliasAction, StrOrList.denoted]
        using addThenRemove_eq_single bindings X hnd
  refine ⟨_, hacts, happly, ?_⟩
  simp only [setAliasToSingleIndex, hacts, Bind.bind, Except.bind, pure, Except.pure]
  rw [happly]

/-- Witness for C1: an alias with two stale bindings is repointed to a new
index. -/
theorem setAliasToSingleIndex_correct_witness :
    (["app_1", "app_2"] : List String).Nodup ∧ "app_9" ≠ ""
    ∧ (∃ acts,
        updateAliasActions "app" (.strV "app_9")
          (.arrV ((["app_1", "app_2"] : List String).filter (fun i => i != "app_9")))
          = .ok acts
        ∧ applyAliasActions ["app_1", "app_2"] acts = ["app_9"]
        ∧ setAliasToSingleIndex ["app_1", "app_2"] "app" "app_9" = .ok ["app_9"]) :=
  ⟨by decide, by decide,
   setAliasToSingleIndex_correct ["app_1", "app_2"] "app" "app_9" (by decide) (by decide)⟩

/-- Claim C3: `cleanupOldIndices` deletes exactly the old indices minus the
alias-bound ones; an index currently bound to the alias is never deleted. -/
theorem cleanupOldIndices_protectsAliased (p : String) (settingsResp : List SettingsEntry)
    (aliased : List String) (cutoff : Nat) (hp : p ≠ "") :
    ∃ old, getIndicesOlderThan p settingsResp cutoff = .ok old
      ∧ cleanupOldIndices p settingsResp aliased cutoff
          = .ok (old.filter (fun i => !(aliased.contains i)))
      ∧ ∀ i ∈ aliased, i ∉ old.filter (fun i => !(aliased.contains i)) := by
  have hold : getIndicesOlderThan p settingsResp cutoff
      = .ok ((((settingsResp.filter (fun e => e.2 < cutoff)).insertionSort
          creationDateDesc)).map Prod.fst) := by
    simp [getIndicesOlderThan, hp]
  refine ⟨_, hold, ?_, ?_⟩
  · by_cases hz : ((((settingsResp.filter (fun e => e.2 < cutoff)).insertionSort
        creationDateDesc)).map Prod.fst) = []
    · simp [cleanupOldIndices, hold, hz, Bind.bind, Except.bind, pure, Except.pure]
    · simp [cleanupOldIndices, hold, hz, Bind.bind, Except.bind, pure, Except.pure]
  · intro i hi him
    rw [List.mem_filter] at him
    have : ¬ (aliased.contains i) = true := by simpa using him.2
    exact this (by simpa using hi)

/-- Witness for C3: two stale indices, one alias-bound; only the unbound one
is deleted. -/
theorem cleanupOldIndices_protectsAliased_witness :
    "app" ≠ ""
    ∧ (∃ old, getIndicesOlderThan "app" [("app_1", 100), ("app_2", 10), ("app_3", 5)] 50
          = .ok old
        ∧ cleanupOldIndices "app" [("app_1", 100), ("app_2", 10), ("app_3", 5)]
            ["app_2"] 50 = .ok (old.filter (fun i => !((["app_2"] : List String).contains i)))
        ∧ ∀ i ∈ (["app_2"] : List String),
            i ∉ old.filter (fun i => !((["app_2"] : List String).contains i))) :=
  ⟨by decide,
   cleanupOldIndices_protectsAliased "app" [("app_1", 100), ("app_2", 10), ("app_3", 5)]
     ["app_2"] 50 (by decide)⟩

/-- Claim C4: for a non-empty name, `getIndicesOlderThan` returns exactly the
indices whose creation date is strictly below the cutoff, sorted descending
by creation date (strictly descending when the dates are distinct). -/
theorem getIndicesOlderThan_spec (aliasName : String) (settingsResp : List SettingsEntry)
    (cutoff : Nat) (h : aliasName ≠ "") :
    ∃ pairs : List SettingsEntry,
      getIndicesOlderThan aliasName settingsResp cutoff = .ok (pairs.map Prod.fst)
      ∧ pairs.Perm (settingsResp.filter (fun e => e.2 < cutoff))
      ∧ pairs.Pairwise creationDateDesc
      ∧ (∀ nm : String, nm ∈ pairs.map Prod.fst ↔
          ∃ d, (nm, d) ∈ settingsResp ∧ d < cutoff)
      ∧ ((settingsResp.map Prod.snd).Nodup →
          pairs.Pairwise (fun x y => y.2 < x.2)) := by
  refine ⟨(settingsResp.filter (fun e => e.2 < cutoff)).insertionSort creationDateDesc,
    ?_, List.perm_insertionSort _ _, List.sorted_insertionSort _ _, ?_, ?_⟩
  · simp [getIndicesOlderThan, h]
  · intro nm
    constructor
    · intro hmem
      rcases List.mem_map.mp hmem with ⟨pr, hpr, rfl⟩
      have hf : pr ∈ settingsResp.filter (fun e => e.2 < cutoff) :=
        (List.mem_insertionSort creationDateDesc).mp hpr
      rcases List.mem_filter.mp hf with ⟨hmem2, hlt⟩
      exact ⟨pr.2, by simpa using hmem2, by simpa using hlt⟩
    · rintro ⟨d, hmem, hd⟩
      exact List.mem_map.mpr ⟨(nm, d),
        (List.mem_insertionSort creationDateDesc).mpr
          (List.mem_filter.mpr ⟨hmem, by simpa⟩), rfl⟩
  · intro hnd
    have h1 : ((settingsResp.filter (fun e => e.2 < cutoff)).map Prod.snd).Nodup :=
      List.Nodup.sublist ((List.filter_sublist _).map Prod.snd) hnd
    have h2 : (((settingsResp.filter (fun e => e.2 < cutoff)).insertionSort
        creationDateDesc).map Prod.snd).Nodup :=
      (((List.perm_insertionSort creationDateDesc _)).map Prod.snd).nodup_iff.mpr h1
    have h3 : ((settingsResp.filter (fun e => e.2 < cutoff)).insertionSort
        creationDateDesc).Pairwise (fun x y : SettingsEntry => x.2 ≠ y.2) :=
      List.pairwise_map.mp h2
    have h4 := List.sorted_insertionSort creationDateDesc
      (settingsResp.filter (fun e => e.2 < cutoff))
    exact (List.Pairwise.and h4 h3).imp
      (fun hab => lt_of_le_of_ne hab.1 (fun he => hab.2 he.symm))

/-- Witness for C4: three indices with distinct dates d1 > d2 > d3 below the
cutoff come back in the order [idx(d1), idx(d2), idx(d3)]. -/
theorem getIndicesOlderThan_spec_witness :
    "app" ≠ ""
    ∧ (∃ pairs : List SettingsEntry,
        getIndicesOlderThan "app" [("x2", 20), ("x1", 30), ("x3", 10)] 100
          = .ok (pairs.map Prod.fst)
        ∧ pairs.Perm (([("x2", 20), ("x1", 30), ("x3", 10)] : List SettingsEntry).filter
            (fun e => e.2 < 100))
        ∧ pairs.Pairwise creationDateDesc
        ∧ (∀ nm : String, nm ∈ pairs.map Prod.fst ↔
            ∃ d, (nm, d) ∈ ([("x2", 20), ("x1", 30), ("x3", 10)] : List SettingsEntry)
              ∧ d < 100)
        ∧ ((([("x2", 20), ("x1", 30), ("x3", 10)] : List SettingsEntry).map
              Prod.snd).Nodup →
            pairs.Pairwise (fun x y => y.2 < x.2)))
    ∧ getIndicesOlderThan "app" [("x2", 20), ("x1", 30), ("x3", 10)] 100
        = .ok ["x1", "x2", "x3"] :=
  ⟨by decide,
   getIndicesOlderThan_spec "app" [("x2", 20), ("x1", 30), ("x3", 10)] 100 (by decide),
   rfl⟩

lemma filter_three_length {α : Type} (p q r : α → Bool) (l : List α)
    (h : ∀ i ∈ l, (p i = true ∧ q i = false ∧ r i = false)
      ∨ (p i = false ∧ q i = true ∧ r i = false)
      ∨ (p i = false ∧ q i = false ∧ r i = true)) :
    (l.filter p).length + (l.filter q).length + (l.filter r).length = l.length := by
  induction l with
  | nil => simp
  | cons x t ih =>
    have hx := h x (by simp)
    have ht := ih (fun i hi => h i (by simp [hi]))
    rcases hx with ⟨hp, hq, hr⟩ | ⟨hp, hq, hr⟩ | ⟨hp, hq, hr⟩ <;>
      simp [List.filter_cons, hp, hq, hr] <;> omega

/-- An index entry of a well-formed bulk response: it either reports an
error (and then no created/updated result) or exactly one of the results
"created" / "updated" (and no error). -/
def wfIndexItem (i : IndexItem) : Prop :=
  (i.error.isSome = true ∧ i.result ≠ some "created" ∧ i.result ≠ some "updated")
  ∨ (i.error = none ∧ (i.result = some "created" ∨ i.result = some "updated"))

instance (i : IndexItem) : Decidable (wfIndexItem i) := by
  unfold wfIndexItem
  infer_instance

/-- Counterexample for C9 as stated: over arbitrary cluster responses the
three filters are independent, so a response entry carrying both
`result: "created"` and an `error` lands in two buckets at once. -/
theorem indexDocumentBulk_overlap :
    (indexDocumentBulk [some ⟨"d1", some "created", some "boom"⟩]).created = ["d1"]
    ∧ (indexDocumentBulk [some ⟨"d1", some "created", some "boom"⟩]).errors
        = [("d1", "boom")] :=
  ⟨rfl, rfl⟩

/-- Claim C9 (amended): for bulk responses whose index entries are
well-formed — an entry reports either an error or exactly one of the results
"created"/"updated" — the classification is exhaustive and disjoint: every
entry lands in exactly one of the created/updated/errors buckets, and the
bucket sizes sum to the number of index entries. -/
theorem indexDocumentBulk_exhaustive (items : List (Option IndexItem))
    (hwf : ∀ i ∈ indexedItems items, wfIndexItem i) :
    (∀ i ∈ indexedItems items,
      ((i.result == some "created") = true ∧ (i.result == some "updated") = false
        ∧ i.error.isSome = false)
      ∨ ((i.result == some "created") = false ∧ (i.result == some "updated") = true
        ∧ i.error.isSome = false)
      ∨ ((i.result == some "created") = false ∧ (i.result == some "updated") = false
        ∧ i.error.isSome = true))
    ∧ (indexDocumentBulk items).created.length
        + (indexDocumentBulk items).updated.length
        + (indexDocumentBulk items).errors.length
      = (indexedItems items).length := by
  have hone : ∀ i ∈ indexedItems items,
      ((i.result == some "created") = true ∧ (i.result == some "updated") = false
        ∧ i.error.isSome = false)
      ∨ ((i.result == some "created") = false ∧ (i.result == some "updated") = true
        ∧ i.error.isSome = false)
      ∨ ((i.result == some "created") = false ∧ (i.result == some "updated") = false
        ∧ i.error.isSome = true) := by
    intro i hi
    rcases hwf i hi with ⟨he, hc, hu⟩ | ⟨he, hc | hu⟩
    · exact .inr (.inr ⟨beq_eq_false_iff_ne.mpr hc, beq_eq_false_iff_ne.mpr hu, he⟩)
    · refine .inl ⟨beq_iff_eq.mpr hc, ?_, by simp [he]⟩
      refine beq_eq_false_iff_ne.mpr ?_
      rw [hc]
      simp
    · refine .inr (.inl ⟨?_, beq_iff_eq.mpr hu, by simp [he]⟩)
      refine beq_eq_false_iff_ne.mpr ?_
      rw [hu]
      simp
  refine ⟨hone, ?_⟩
  have hsum := filter_three_length (fun i => i.result == some "created")
    (fun i => i.result == some "updated") (fun i => i.error.isSome)
    (indexedItems items) hone
  simpa [indexDocumentBulk] using hsum

/-- Witness for C9 (amended) on a concrete well-formed response. -/
theorem indexDocumentBulk_exhaustive_witness :
    (∀ i ∈ indexedItems [some ⟨"a", some "created", none⟩, none,
        some ⟨"b", none, some "bad"⟩, some ⟨"c", some "updated", none⟩],
      wfIndexItem i)
    ∧ ((∀ i ∈ indexedItems [some ⟨"a", some "created", none⟩, none,
          some ⟨"b", none, some "bad"⟩, some ⟨"c", some "updated", none⟩],
        ((i.result == some "created") = true ∧ (i.result == some "updated") = false
          ∧ i.error.isSome = false)
        ∨ ((i.result == some "created") = false ∧ (i.result == some "updated") = true
          ∧ i.error.isSome = false)
        ∨ ((i.result == some "created") = false ∧ (i.result == some "updated") = false
          ∧ i.error.isSome = true))
      ∧ (indexDocumentBulk [some ⟨"a", some "created", none⟩, none,
            some ⟨"b", none, some "bad"⟩, some ⟨"c", some "updated", none⟩]).created.length
          + (indexDocumentBulk [some ⟨"a", some "created", none⟩, none,
              some ⟨"b", none, some "bad"⟩, some ⟨"c", some "updated", none⟩]).updated.length
          + (indexDocumentBulk [some ⟨"a", some "created", none⟩, none,
              some ⟨"b", none, some "bad"⟩, some ⟨"c", some "updated", none⟩]).errors.length
        = (indexedItems [some ⟨"a", some "created", none⟩, none,
            some ⟨"b", none, some "bad"⟩, some ⟨"c", some "updated", none⟩]).length) :=
  ⟨by decide, indexDocumentBulk_exhaustive _ (by decide)⟩

/-! ### Timestamp format lemmas -/

lemma digitChar_isDigit {m : Nat} (h : m < 10) : (Nat.digitChar m).isDigit = true := by
  interval_cases m <;> decide

lemma toDigitsCore_all_digits (f : Nat) : ∀ (n : Nat) (l : List Char),
    (∀ c ∈ l, c.isDigit = true) → ∀ c ∈ Nat.toDigitsCore 10 f n l, c.isDigit = true := by
  induction f with
  | zero =>
    intro n l hl c hc
    simp only [Nat.toDigitsCore] at hc
    exact hl c hc
  | succ f ih =>
    intro n l hl c hc
    simp only [Nat.toDigitsCore] at hc
    have hd : (Nat.digitChar (n % 10)).isDigit = true :=
      digitChar_isDigit (Nat.mod_lt n (by decide))
    by_cases hz : n / 10 = 0
    · rw [if_pos hz] at hc
      rcases List.mem_cons.mp hc with rfl | h
      · exact hd
      · exact hl c h
    · rw [if_neg hz] at hc
      refine ih (n / 10) (Nat.digitChar (n % 10) :: l) ?_ c hc
      intro c' hc'
      rcases List.mem_cons.mp hc' with rfl | h
      · exact hd
      · exact hl c' h

lemma repr_all_digits (n : Nat) : ∀ c ∈ (Nat.repr n).toList, c.isDigit = true := by
  intro c hc
  have hrepr : (Nat.repr n).toList = Nat.toDigits 10 n := rfl
  rw [hrepr] at hc
  exact toDigitsCore_all_digits (n + 1) n [] (by simp) c hc

lemma padNum_all_digits (w n : Nat) : ∀ c ∈ (padNum w n).toList, c.isDigit = true := by
  intro c hc
  have hsplit : (padNum w n).toList
      = List.replicate (w - (Nat.repr n).length) '0' ++ (Nat.repr n).toList := by
    simp [padNum, String.toList, String.data_append]
  rw [hsplit] at hc
  rcases List.mem_append.mp hc with h | h
  · rw [List.eq_of_mem_replicate h]
    decide
  · exact repr_all_digits n c h

lemma padNum_length {w n : Nat} (hw : 0 < w) (h : n < 10 ^ w) :
    (padNum w n).length = w := by
  have hlen : (Nat.repr n).length ≤ w := Nat.repr_length n w hw h
  have hmk : (String.mk (List.replicate (w - (Nat.repr n).length) '0')).length
      = w - (Nat.repr n).length := by
    show (List.replicate (w - (Nat.repr n).length) '0').length = _
    exact List.length_replicate _ _
  have : (padNum w n).length = (w - (Nat.repr n).length) + (Nat.repr n).length := by
    rw [padNum, String.length_append, hmk]
  rw [this, Nat.sub_add_cancel hlen]

/-- Counterexample for C2 as stated: the generated name's suffix is not a
14-digit string with no internal separator — the format is
"YYYYMMDD_HHmmss", which has 15 characters including an underscore. -/
theorem createTimestampedIndex_suffix :
    createTimestampedIndex "logs" ⟨2024, 1, 1, 0, 0, 0⟩ = "logs_20240101_000000"
    ∧ (("logs_20240101_000000".drop 5).toList.all Char.isDigit) = false
    ∧ ("logs_20240101_000000".drop 5).length ≠ 14 := by
  refine ⟨rfl, rfl, by decide⟩

/-- Claim C2 (amended): `createTimestampedIndex(prefix, ...)` returns
prefix ++ "_" ++ date ++ "_" ++ time, where the date part is 8 digits
(YYYYMMDD) and the time part 6 digits (HHmmss), separated by a further
underscore — the moment format "YYYYMMDD_HHmmss". -/
theorem createTimestampedIndex_format (p : String) (t : Wallclock)
    (hy : t.year < 10 ^ 4) (hmo : t.month < 10 ^ 2) (hd : t.day < 10 ^ 2)
    (hh : t.hour < 10 ^ 2) (hmi : t.minute < 10 ^ 2) (hs : t.second < 10 ^ 2) :
    ∃ dpart tpart : String,
      createTimestampedIndex p t = p ++ "_" ++ dpart ++ "_" ++ tpart
      ∧ dpart.length = 8 ∧ tpart.length = 6
      ∧ (∀ c ∈ dpart.toList, c.isDigit = true)
      ∧ (∀ c ∈ tpart.toList, c.isDigit = true) := by
  refine ⟨padNum 4 t.year ++ padNum 2 t.month ++ padNum 2 t.day,
    padNum 2 t.hour ++ padNum 2 t.minute ++ padNum 2 t.second, ?_, ?_, ?_, ?_, ?_⟩
  · simp [createTimestampedIndex, formatTimestamp, String.append_assoc]
  · rw [String.length_append, String.length_append, padNum_length (by decide) hy,
      padNum_length (by decide) hmo, padNum_length (by decide) hd]
  · rw [String.length_append, String.length_append, padNum_length (by decide) hh,
      padNum_length (by decide) hmi, padNum_length (by decide) hs]
  · intro c hc
    have : (padNum 4 t.year ++ padNum 2 t.month ++ padNum 2 t.day).toList
        = (padNum 4 t.year).toList ++ (padNum 2 t.month).toList
          ++ (padNum 2 t.day).toList := by
      simp [String.toList, String.data_append]
    rw [this] at hc
    rcases List.mem_append.mp hc with h | h
    · rcases List.mem_append.mp h with h' | h'
      · exact padNum_all_digits 4 t.year c h'
      · exact padNum_all_digits 2 t.month c h'
    · exact padNum_all_digits 2 t.day c h
  · intro c hc
    have : (padNum 2 t.hour ++ padNum 2 t.minute ++ padNum 2 t.second).toList
        = (padNum 2 t.hour).toList ++ (padNum 2 t.minute).toList
          ++ (padNum 2 t.second).toList := by
      simp [String.toList, String.data_append]
    rw [this] at hc
    rcases List.mem_append.mp hc with h | h
    · rcases List.mem_append.mp h with h' | h'
      · exact padNum_all_digits 2 t.hour c h'
      · exact padNum_all_digits 2 t.minute c h'
    · exact padNum_all_digits 2 t.second c h

/-- Witness for C2 (amended) on a concrete time. -/
theorem createTimestampedIndex_format_witness :
    ((2024 : Nat) < 10 ^ 4 ∧ (1 : Nat) < 10 ^ 2 ∧ (0 : Nat) < 10 ^ 2)
    ∧ (∃ dpart tpart : String,
        createTimestampedIndex "logs" ⟨2024, 1, 1, 0, 0, 0⟩
          = "logs" ++ "_" ++ dpart ++ "_" ++ tpart
        ∧ dpart.length = 8 ∧ tpart.length = 6
        ∧ (∀ c ∈ dpart.toList, c.isDigit = true)
        ∧ (∀ c ∈ tpart.toList, c.isDigit = true)) :=
  ⟨by decide,
   createTimestampedIndex_format "logs" ⟨2024, 1, 1, 0, 0, 0⟩ (by decide) (by decide)
     (by decide) (by decide) (by decide) (by decide)⟩

end ElasticTools
